import Mathlib

/-!
Verification of the JSON structure analyzer (`json_analys.py`).

The development shallowly embeds the core of the source file:

* `analyze_json_structure` — the recursive walk that records, for every field
  of a JSON-like tree, its dotted path, the Python type name of its value and
  its nesting level, together with a type-occurrence counter and the maximum
  level reached;
* the field-consistency index built by `analys_json_folder` (the
  `field_types` dictionary mapping field path → type name → list of files)
  and its report `generate_field_consistency_report`;
* `analyze_consistency`, the cross-document level/type-count comparison.

JSON trees are modelled by a mutual inductive so that every definition is
structurally recursive and hence computable by the kernel.  Python `dict`s
are modelled by insertion-ordered association lists, mirroring the insertion
semantics of the source (`defaultdict(int)` increments, nested-dict growth).
-/

mutual

/-- A JSON-like value as handed to the analyzer by `json.load`.  Mapping
entries and sequence elements are given by the mutually defined list types so
that all recursion below is structural.  The payload of a float is irrelevant
to the analyzer (only the runtime type name is ever inspected), so it is
elided. -/
inductive JsonValue : Type where
  | obj : JsonEntries → JsonValue
  | arr : JsonList → JsonValue
  | str : String → JsonValue
  | int : Int → JsonValue
  | float : JsonValue
  | bool : Bool → JsonValue
  | null : JsonValue

inductive JsonEntries : Type where
  | nil : JsonEntries
  | cons : String → JsonValue → JsonEntries → JsonEntries

inductive JsonList : Type where
  | nil : JsonList
  | cons : JsonValue → JsonList → JsonList

end

/-- Python's `type(value).__name__` for each value category. -/
def typeName : JsonValue → String
  | .obj _ => "dict"
  | .arr _ => "list"
  | .str _ => "str"
  | .int _ => "int"
  | .float => "float"
  | .bool _ => "bool"
  | .null => "NoneType"

/-- Python's `isinstance(value, (dict, list))` test guarding recursion. -/
def isContainer : JsonValue → Bool
  | .obj _ => true
  | .arr _ => true
  | _ => false

/-- One entry of the `result["fields"]` list: `{"path": …, "type": …,
"level": …}`. -/
structure FieldInfo where
  path : String
  type : String
  level : Nat
deriving DecidableEq, Repr

/-- The `result` dictionary threaded through `analyze_json_structure`:
`fields` list, `types` counter (a `defaultdict(int)`, modelled as an
insertion-ordered association list) and `max_level`. -/
structure AnalysisResult where
  fields : List FieldInfo
  types : List (String × Nat)
  max_level : Nat
deriving DecidableEq, Repr

/-- `result["types"][name] += 1` on a `defaultdict(int)`: bump the existing
entry or append a fresh entry with count 1. -/
def incr (ts : List (String × Nat)) (name : String) : List (String × Nat) :=
  match ts with
  | [] => [(name, 1)]
  | (k, n) :: rest => if k = name then (k, n + 1) :: rest else (k, n) :: incr rest name

/-- `types.get(name, 0)`. -/
def lookup0 (ts : List (String × Nat)) (name : String) : Nat :=
  match ts with
  | [] => 0
  | (k, n) :: rest => if k = name then n else lookup0 rest name

/-- The fresh `result` created when `analyze_json_structure` is called with
`result=None`. -/
def emptyResult : AnalysisResult := { fields := [], types := [], max_level := 0 }

mutual

/- `analyze_json_structure(data, path, result, level)` (lines 6–64 of the
source).  The Python function mutates `result` in place and returns it; the
embedding threads the updated record instead.  The mapping branch is factored
into `analyze_entries`, the loop over `data.items()`. -/
def analyze_json_structure (data : JsonValue) (path : String) (result : AnalysisResult)
    (level : Nat) : AnalysisResult :=
  let result := { result with max_level := max result.max_level level }
  match data with
  | .obj kvs => analyze_entries kvs path result level
  | .arr items =>
    let result := { result with types := incr result.types "list" }
    match items with
    | .nil => result
    | .cons sample _ =>
      let samplePath := path ++ "[0]"
      let result := { result with
        fields := result.fields ++ [{ path := samplePath, type := typeName sample, level := level }] }
      if isContainer sample then
        analyze_json_structure sample samplePath result (level + 1)
      else
        result
  | _ => result

/-- The `for key, value in data.items()` loop of the mapping branch
(lines 31–43 of the source). -/
def analyze_entries (kvs : JsonEntries) (path : String) (result : AnalysisResult)
    (level : Nat) : AnalysisResult :=
  match kvs with
  | .nil => result
  | .cons key value rest =>
    let currentPath := if path = "" then key else path ++ "." ++ key
    let result := { result with
      fields := result.fields ++ [{ path := currentPath, type := typeName value, level := level }],
      types := incr result.types (typeName value) }
    let result :=
      if isContainer value then analyze_json_structure value currentPath result (level + 1)
      else result
    analyze_entries rest path result level

end

/-- The initial call `analyze_json_structure(data)` with the default
arguments. -/
def analyzeTop (data : JsonValue) : AnalysisResult :=
  analyze_json_structure data "" emptyResult 0

/-- Document A of the spec's concrete scenario:
`{"a": 1, "b": [{"c": "x"}]}`. -/
def docA : JsonValue :=
  .obj (.cons "a" (.int 1)
    (.cons "b" (.arr (.cons (.obj (.cons "c" (.str "x") .nil)) .nil)) .nil))

/-- Document B of the spec's concrete scenario:
`{"a": 2, "b": [{"c": 3}]}`. -/
def docB : JsonValue :=
  .obj (.cons "a" (.int 2)
    (.cons "b" (.arr (.cons (.obj (.cons "c" (.int 3) .nil)) .nil)) .nil))

/-- The nested type-to-files dictionary stored under one field path:
`{类型: [出现的文件列表]}`. -/
abbrev TypeFiles := List (String × List String)

/-- The `field_types` index of `analys_json_folder`:
`{字段路径: {类型: [出现的文件列表]}}` as an insertion-ordered association
list. -/
abbrev FieldTypes := List (String × TypeFiles)

/-- Record one file under one type inside a path's bucket (the
`if field_type not in …` / `append` steps of lines 230–233). -/
def appendAt (m : TypeFiles) (ty f : String) : TypeFiles :=
  match m with
  | [] => [(ty, [f])]
  | (t, fs) :: rest => if t = ty then (t, fs ++ [f]) :: rest else (t, fs) :: appendAt rest ty f

/-- Fold one field observation into the shared index (lines 223–233 of the
source): create the path bucket if missing, create the type entry if missing,
append the file title. -/
def addObservation (ft : FieldTypes) (path ty f : String) : FieldTypes :=
  match ft with
  | [] => [(path, [(ty, [f])])]
  | (p, m) :: rest =>
    if p = path then (p, appendAt m ty f) :: rest
    else (p, m) :: addObservation rest path ty f

/-- Fold every observation of one document's walk into the index, in
observation order. -/
def foldDocument (ft : FieldTypes) (file : String) (fields : List FieldInfo) : FieldTypes :=
  fields.foldl (fun acc fi => addObservation acc fi.path fi.type file) ft

/-- Fold a list of successfully loaded documents into the index. -/
def foldDocuments (ft : FieldTypes) (docs : List (String × JsonValue)) : FieldTypes :=
  docs.foldl (fun acc d => foldDocument acc d.1 (analyzeTop d.2).fields) ft

/-- The `field_types` index produced by the batch loop of
`analys_json_folder` for a list of (file title, parsed document) pairs. -/
def buildFieldTypes (docs : List (String × JsonValue)) : FieldTypes :=
  foldDocuments [] docs

/-- `field_types[field_path]` lookup, returning the empty bucket for an
absent path. -/
def lookupTypes (ft : FieldTypes) (path : String) : TypeFiles :=
  match ft with
  | [] => []
  | (p, m) :: rest => if p = path then m else lookupTypes rest path

/-- The per-path classification `is_consistent = len(types) == 1` of
line 292 of the source (the inconsistent list of line 267 is its
complement, `len(types) > 1`). -/
def pathConsistent (ft : FieldTypes) (path : String) : Bool :=
  (lookupTypes ft path).length == 1

/-- `max_levels = {file: result["max_level"] for …}` (line 373). -/
def maxLevels (all_results : List (String × AnalysisResult)) : List (String × Nat) :=
  all_results.map (fun fr => (fr.1, fr.2.max_level))

/-- `is_level_consistent = len(set(max_levels.values())) == 1` (line 376). -/
def isLevelConsistent (all_results : List (String × AnalysisResult)) : Bool :=
  ((maxLevels all_results).map Prod.snd).dedup.length == 1

/-- `all_types`, the set of type names appearing in any document's `types`
counter (lines 385–387); modelled as a deduplicated list, so membership
agrees with the Python set. -/
def allTypes (all_results : List (String × AnalysisResult)) : List String :=
  (all_results.foldl (fun acc fr => acc ++ fr.2.types.map Prod.fst) []).dedup

/-- `type_counts[type_name]`: for every file the count of `type_name`,
zero when absent (`types.get(type_name, 0)`, lines 392–395). -/
def typeCounts (all_results : List (String × AnalysisResult)) (ty : String) :
    List (String × Nat) :=
  all_results.map (fun fr => (fr.1, lookup0 fr.2.types ty))

/-- `type_consistency[type_name]`: initialised `True`, set to `False` when
`len(set(counts.values())) > 1` (lines 389, 397–399). -/
def typeConsistent (all_results : List (String × AnalysisResult)) (ty : String) : Bool :=
  !(((typeCounts all_results ty).map Prod.snd).dedup.length > 1)

/-- The accumulator state of the batch loop in `analys_json_folder`: the
shared `field_types` index, the `all_files` list, and the log of per-file
error reports printed by the `except` clause. -/
structure BatchState where
  field_types : FieldTypes
  all_files : List String
  errors : List String
deriving DecidableEq, Repr

/-- The error line printed by `except Exception as e` at line 238:
`f"处理文件 {json_file} 时出错: {e}"`. -/
def errorLine (file msg : String) : String :=
  "处理文件 " ++ file ++ " 时出错: " ++ msg

/-- One iteration of the `for json_file in json_files` loop (lines 209–238).
The outcome of `open` + `json.load` for the file is an `Except` value: on
success the document is analyzed and folded into the index, on failure the
error is reported for that file and the loop continues. -/
def batchStep (s : BatchState) (d : String × Except String JsonValue) : BatchState :=
  match d.2 with
  | .ok data =>
    { s with
      field_types := foldDocument s.field_types d.1 (analyzeTop data).fields,
      all_files := s.all_files ++ [d.1] }
  | .error e => { s with errors := s.errors ++ [errorLine d.1 e] }

/-- The batch loop starting from an arbitrary accumulator state. -/
def processFrom (s : BatchState) (docs : List (String × Except String JsonValue)) : BatchState :=
  docs.foldl batchStep s

/-- The whole batch loop of `analys_json_folder`. -/
def processBatch (docs : List (String × Except String JsonValue)) : BatchState :=
  processFrom { field_types := [], all_files := [], errors := [] } docs

/-- The successfully loaded documents of a batch. -/
def okDocs (docs : List (String × Except String JsonValue)) : List (String × JsonValue) :=
  docs.filterMap (fun d => match d.2 with | .ok v => some (d.1, v) | .error _ => none)

/-- The error reports of a batch, in batch order. -/
def errMessages (docs : List (String × Except String JsonValue)) : List String :=
  docs.filterMap (fun d => match d.2 with | .ok _ => none | .error e => some (errorLine d.1 e))

/-- `field_path.count(".")`, the level shown in the consistency report
(line 297). -/
def countDots (s : String) : Nat :=
  s.toList.countP (fun c => c == '.')

/-- `", ".join(l)`. -/
def joinComma (l : List String) : String :=
  String.intercalate ", " l

/-- Python `sorted` on strings. -/
def sortStrings (l : List String) : List String :=
  l.mergeSort (fun a b => a ≤ b)

/-- The `file_info` text of a *consistent* field row (lines 306–315). -/
def fileInfoFor (files : List String) (total_files : Nat) : String :=
  if files.length = total_files then
    "所有" ++ toString total_files ++ "个文件"
  else if files.length > 2 then
    joinComma (files.take 2) ++ " 等" ++ toString files.length ++ "个文件"
  else
    joinComma files ++ " 等" ++ toString files.length ++ "个文件"

/-- The `file_example` text inside an *inconsistent* field row
(lines 319–323). -/
def fileExampleFor (files : List String) : String :=
  if files.length > 2 then
    joinComma (files.take 2) ++ " 等" ++ toString files.length ++ "个文件"
  else
    joinComma files ++ " 等" ++ toString files.length ++ "个文件"

/-- One row of the "所有字段及其格式" table (lines 290–327). -/
def fieldRow (total_files : Nat) (field_path : String) (types : TypeFiles) : String :=
  let is_consistent := types.length == 1
  let level := countDots field_path
  let type_info := joinComma (types.map Prod.fst)
  let file_info :=
    if is_consistent then fileInfoFor ((types.head?.map Prod.snd).getD []) total_files
    else
      String.intercalate "<br>"
        (types.map (fun tf => tf.1 ++ ": " ++ fileExampleFor tf.2))
  "| " ++ toString level ++ " | " ++ field_path ++ " | " ++ type_info ++ " | " ++
    (if is_consistent then "是" else "否") ++ " | " ++ file_info ++ " |"

/-- The detail block for one inconsistent field (lines 337–355). -/
def inconsistentDetail (ft : FieldTypes) (field_path : String) : List String :=
  let types := lookupTypes ft field_path
  [ "### 字段: " ++ field_path ++ " (层级: " ++ toString (countDots field_path) ++ ")",
    "",
    "| 数据类型 | 出现的文件 |",
    "| -------- | ---------- |" ] ++
  types.map (fun tf => "| " ++ tf.1 ++ " | " ++ joinComma tf.2 ++ " |") ++ [""]

/-- `generate_field_consistency_report(field_types, all_files)`
(lines 250–357 of the source). -/
def generate_field_consistency_report (field_types : FieldTypes) (all_files : List String) :
    String :=
  if field_types.isEmpty then "# JSON字段一致性分析\n\n未找到有效的字段信息。"
  else
    let total_files := all_files.length
    let inconsistent_fields := (field_types.filter (fun pt => pt.2.length > 1)).map Prod.fst
    let header :=
      [ "# JSON字段一致性分析", "", "## 分析结果概述", "",
        "- 总文件数: " ++ toString total_files,
        "- 总字段数: " ++ toString field_types.length,
        "- 格式一致的字段数: " ++ toString (field_types.length - inconsistent_fields.length),
        "- 格式不一致的字段数: " ++ toString inconsistent_fields.length,
        "", "## 所有字段及其格式", "",
        "| 层级 | 字段路径 | 数据类型 | 是否一致 | 出现的文件 |",
        "| ---- | -------- | -------- | -------- | ---------- |" ]
    let sorted_fields := sortStrings (field_types.map Prod.fst)
    let rows := sorted_fields.map (fun p => fieldRow total_files p (lookupTypes field_types p))
    let detail :=
      if inconsistent_fields.isEmpty then []
      else
        ["", "## 格式不一致的字段详情", ""] ++
          (inconsistent_fields.map (inconsistentDetail field_types)).flatten
    String.intercalate "\n" (header ++ rows ++ detail)

/-- One row of the "数据类型一致性" table (lines 433–440). -/
def typeRow (all_results : List (String × AnalysisResult)) (type_name : String) : String :=
  if typeConsistent all_results type_name then
    "| " ++ type_name ++ " | 是 | 所有文件中出现 " ++
      toString (((typeCounts all_results type_name).map Prod.snd).head?.getD 0) ++ " 次 |"
  else
    "| " ++ type_name ++ " | 否 | " ++
      joinComma ((typeCounts all_results type_name).map (fun fc => fc.1 ++ ": " ++ toString fc.2))
      ++ " |"

/-- `analyze_consistency(all_results)` (lines 359–460 of the source). -/
def analyze_consistency (all_results : List (String × AnalysisResult)) : String :=
  if all_results.isEmpty then "# JSON结构一致性分析\n\n未找到有效的分析结果。"
  else
    let max_levels := maxLevels all_results
    let is_level_consistent := isLevelConsistent all_results
    let consistent_level := ((max_levels.map Prod.snd).head?).getD 0
    let all_types := allTypes all_results
    let intro :=
      [ "# JSON结构一致性分析", "",
        "## 分析的文件数量: " ++ toString all_results.length, "",
        "## 层级一致性", "",
        "层级是否一致: " ++ (if is_level_consistent then "是" else "否"), "" ]
    let levelPart :=
      if is_level_consistent then ["所有文件的最大层级深度: " ++ toString consistent_level]
      else
        ["各文件的最大层级深度:", "", "| 文件 | 最大层级 |", "| ---- | -------- |"] ++
          max_levels.map (fun fl => "| " ++ fl.1 ++ " | " ++ toString fl.2 ++ " |")
    let typePart :=
      ["", "## 数据类型一致性", "", "| 数据类型 | 是否一致 | 详情 |",
        "| -------- | -------- | ---- |"] ++
        (sortStrings all_types).map (typeRow all_results)
    let allConsistent := all_types.all (fun t => typeConsistent all_results t)
    let conclusion :=
      [ "", "## 总体结论", "",
        "JSON结构" ++ (if is_level_consistent && allConsistent then "完全一致" else "不一致")
          ++ "。",
        "", "### 不一致项:", "" ]
    let incLevel := if is_level_consistent then [] else ["- 层级深度不一致"]
    let incTypes :=
      (all_types.filter (fun t => !(typeConsistent all_results t))).map
        (fun t => "- 数据类型 \x27" ++ t ++ "\x27 的出现次数不一致")
    String.intercalate "\n" (intro ++ levelPart ++ typePart ++ conclusion ++ incLevel ++ incTypes)

mutual

/-- The container-nesting depth actually tracked by the walk: every recursion
into a nested mapping, or into the sampled first element of a sequence when
that element is itself a mapping or sequence, adds one. -/
def containerDepth : JsonValue → Nat
  | .obj kvs => entriesDepth kvs
  | .arr .nil => 0
  | .arr (.cons x _) => if isContainer x then 1 + containerDepth x else 0
  | _ => 0

/-- Container-nesting depth contributed by the children of a mapping. -/
def entriesDepth : JsonEntries → Nat
  | .nil => 0
  | .cons _ v rest =>
    max (if isContainer v then 1 + containerDepth v else 0) (entriesDepth rest)

end

mutual

/-- Modelled from the spec's words, for comparison with the code (glossary:
"Depth/level: count of mapping-nesting boundaries crossed from the document
root to a given path; sequences do not increase depth"): the maximum number
of mapping boundaries crossed to reach any location of the tree, where
descending into a sequence crosses no boundary. -/
def specMappingDepth : JsonValue → Nat
  | .obj kvs => specMappingDepthEntries kvs
  | .arr items => specMappingDepthList items
  | _ => 0

/-- Maximum over a mapping's children of the boundaries crossed below. -/
def specMappingDepthEntries : JsonEntries → Nat
  | .nil => 0
  | .cons _ v rest => max (specMappingStep v) (specMappingDepthEntries rest)

/-- Maximum over a sequence's elements of the boundaries crossed below. -/
def specMappingDepthList : JsonList → Nat
  | .nil => 0
  | .cons v rest => max (specMappingStep v) (specMappingDepthList rest)

/-- Boundaries crossed when descending into one child value: entering a
mapping crosses one boundary, entering a sequence crosses none. -/
def specMappingStep : JsonValue → Nat
  | .obj kvs => 1 + specMappingDepthEntries kvs
  | .arr items => specMappingDepthList items
  | _ => 0

end

/-- All (path, type, file) observations of a batch, in fold order. -/
def batchObservations (docs : List (String × JsonValue)) :
    List (String × String × String) :=
  docs.foldl (fun acc d => acc ++ (analyzeTop d.2).fields.map (fun fi => (fi.path, fi.type, d.1))) []

/-- Every kind ever observed for `path` across the whole batch, one entry per
observation. -/
def kindsObserved (docs : List (String × JsonValue)) (path : String) : List String :=
  (batchObservations docs).filterMap (fun o => if o.1 = path then some o.2.1 else none)

/-- Fold a flat observation list into a `field_types` index. -/
def obsFold (ft : FieldTypes) (obs : List (String × String × String)) : FieldTypes :=
  obs.foldl (fun acc o => addObservation acc o.1 o.2.1 o.2.2) ft

/-- The spec's two-document batch, by file title. -/
def batchAB : List (String × JsonValue) := [("A", docA), ("B", docB)]

/-- The per-document analysis results of the spec's two-document batch. -/
def resultsAB : List (String × AnalysisResult) :=
  [("A", analyzeTop docA), ("B", analyzeTop docB)]

/-- The list-of-lists document `[[1]]`. -/
def listOfLists : JsonValue := .arr (.cons (.arr (.cons (.int 1) .nil)) .nil)

/-- The document `{"b": [{"c": 1}]}` whose walk records a `dict` observation
with no `dict` entry in the type counter. -/
def docNestedMap : JsonValue :=
  .obj (.cons "b" (.arr (.cons (.obj (.cons "c" (.int 1) .nil)) .nil)) .nil)

/-- C1: for the two-document batch A = `{"a": 1, "b": [{"c": "x"}]}` and
B = `{"a": 2, "b": [{"c": 3}]}`, the full pipeline (per-document walk, then
aggregation) classifies paths `a`, `b` and `b[0]` as consistent and `b[0].c`
as inconsistent (`str` in A, `int` in B); both documents report
`max_level = 2`, so the batch is level-consistent; and the `str` count
(1 in A, 0 in B) and the `int` count (1 in A, 2 in B) are both
inconsistent. -/
theorem claim1_two_document_pipeline :
    pathConsistent (buildFieldTypes batchAB) "a" = true ∧
    pathConsistent (buildFieldTypes batchAB) "b" = true ∧
    pathConsistent (buildFieldTypes batchAB) "b[0]" = true ∧
    pathConsistent (buildFieldTypes batchAB) "b[0].c" = false ∧
    lookupTypes (buildFieldTypes batchAB) "b[0].c" = [("str", ["A"]), ("int", ["B"])] ∧
    (analyzeTop docA).max_level = 2 ∧
    (analyzeTop docB).max_level = 2 ∧
    isLevelConsistent resultsAB = true ∧
    typeConsistent resultsAB "str" = false ∧
    lookup0 (analyzeTop docA).types "str" = 1 ∧
    lookup0 (analyzeTop docB).types "str" = 0 ∧
    typeConsistent resultsAB "int" = false ∧
    lookup0 (analyzeTop docA).types "int" = 1 ∧
    lookup0 (analyzeTop docB).types "int" = 2 := by
  decide

/-- C9: on an empty `field_types` index, respectively an empty `all_results`
set, `generate_field_consistency_report` and `analyze_consistency` return
their explicit "nothing found / nothing to compare" reports instead of
failing. -/
theorem claim9_empty_batch_reports :
    ∀ files : List String,
      generate_field_consistency_report [] files =
        "# JSON字段一致性分析\n\n未找到有效的字段信息。" ∧
      analyze_consistency [] = "# JSON结构一致性分析\n\n未找到有效的分析结果。" := by
  intro files
  exact ⟨rfl, rfl⟩

/-- C8: a document whose root is a scalar (any non-mapping, non-sequence
value) still yields a well-formed summary — empty observation list, empty
type counter, `max_level = 0` — rather than an error. -/
theorem claim8_scalar_root (v : JsonValue) (h : isContainer v = false) :
    analyzeTop v = { fields := [], types := [], max_level := 0 } := by
  cases v <;> simp [isContainer] at h <;>
    simp [analyzeTop, analyze_json_structure, emptyResult]

/-- Witness for C8 at the scalar root `5`. -/
theorem claim8_witness :
    isContainer (.int 5) = false ∧
      analyzeTop (.int 5) = { fields := [], types := [], max_level := 0 } :=
  ⟨by decide, claim8_scalar_root (.int 5) (by decide)⟩

/-- Depth contribution of a mapping's children as seen from a call at level
`l`: a container child is entered at level `l + 1`. -/
def entriesContrib (l : Nat) : JsonEntries → Nat
  | .nil => 0
  | .cons _ v rest =>
    max (if isContainer v then l + 1 + containerDepth v else 0) (entriesContrib l rest)

theorem max_entriesContrib (l : Nat) (kvs : JsonEntries) :
    max l (entriesContrib l kvs) = l + entriesDepth kvs := by
  cases kvs with
  | nil => simp [entriesContrib, entriesDepth]
  | cons k v rest =>
    have ih := max_entriesContrib l rest
    simp only [entriesContrib, entriesDepth]
    cases hc : isContainer v <;> simp only [hc, if_true, if_false, Bool.false_eq_true] <;> omega

mutual

theorem walk_max_level (v : JsonValue) (p : String) (r : AnalysisResult) (l : Nat) :
    (analyze_json_structure v p r l).max_level = max r.max_level (l + containerDepth v) := by
  cases v with
  | obj kvs =>
    rw [show analyze_json_structure (.obj kvs) p r l
        = analyze_entries kvs p { r with max_level := max r.max_level l } l from rfl]
    rw [entries_max_level]
    simp only [containerDepth]
    rw [Nat.max_assoc, max_entriesContrib]
  | arr items =>
    cases items with
    | nil => simp [analyze_json_structure, containerDepth]
    | cons x rest =>
      cases hc : isContainer x
      · simp [analyze_json_structure, hc, containerDepth]
      · rw [show analyze_json_structure (.arr (.cons x rest)) p r l
            = analyze_json_structure x (p ++ "[0]")
                { fields := r.fields ++ [{ path := p ++ "[0]", type := typeName x, level := l }],
                  types := incr r.types "list", max_level := max r.max_level l } (l + 1) by
              simp [analyze_json_structure, hc]]
        rw [walk_max_level x]
        simp only [containerDepth, hc, if_true]
        omega
  | str s => simp [analyze_json_structure, containerDepth]
  | int n => simp [analyze_json_structure, containerDepth]
  | float => simp [analyze_json_structure, containerDepth]
  | bool b => simp [analyze_json_structure, containerDepth]
  | null => simp [analyze_json_structure, containerDepth]

theorem entries_max_level (kvs : JsonEntries) (p : String) (r : AnalysisResult) (l : Nat) :
    (analyze_entries kvs p r l).max_level = max r.max_level (entriesContrib l kvs) := by
  cases kvs with
  | nil => simp [analyze_entries, entriesContrib]
  | cons k v rest =>
    cases hc : isContainer v
    · rw [show analyze_entries (.cons k v rest) p r l
          = analyze_entries rest p
              { r with
                fields := r.fields ++
                  [{ path := if p = "" then k else p ++ "." ++ k,
                     type := typeName v, level := l }],
                types := incr r.types (typeName v) } l by
            simp [analyze_entries, hc]]
      rw [entries_max_level rest]
      simp only [entriesContrib, hc, if_false, Bool.false_eq_true]
      omega
    · rw [show analyze_entries (.cons k v rest) p r l
          = analyze_entries rest p
              (analyze_json_structure v (if p = "" then k else p ++ "." ++ k)
                { r with
                  fields := r.fields ++
                    [{ path := if p = "" then k else p ++ "." ++ k,
                       type := typeName v, level := l }],
                  types := incr r.types (typeName v) } (l + 1)) l by
            simp [analyze_entries, hc]]
      rw [entries_max_level rest, walk_max_level v]
      simp only [entriesContrib, hc, if_true]
      omega

end

/-- C2 (counterexample): for the list-of-lists document `[[1]]` the walk
reports `max_level = 1` although the tree contains no mapping at all, so the
maximum number of mapping-nesting boundaries crossed from the root is 0:
traversing through a sequence does increase the reported depth. -/
theorem claim2_counterexample :
    (analyzeTop listOfLists).max_level = 1 ∧ specMappingDepth listOfLists = 0 := by
  decide

theorem dedup_length_le_one_iff {α : Type} [DecidableEq α] (l : List α) :
    l.dedup.length ≤ 1 ↔ ∀ a ∈ l, ∀ b ∈ l, a = b := by
  constructor
  · intro h a ha b hb
    have ha' : a ∈ l.dedup := List.mem_dedup.2 ha
    have hb' : b ∈ l.dedup := List.mem_dedup.2 hb
    rcases hd : l.dedup with _ | ⟨c, _ | ⟨d, t⟩⟩
    · rw [hd] at ha'; exact absurd ha' (List.not_mem_nil a)
    · rw [hd] at ha' hb'
      simp only [List.mem_singleton] at ha' hb'
      rw [ha', hb']
    · rw [hd] at h; simp at h
  · intro h
    induction l with
    | nil => simp
    | cons a l ih =>
      by_cases hmem : a ∈ l
      · rw [List.dedup_cons_of_mem hmem]
        exact ih fun x hx y hy =>
          h x (List.mem_cons_of_mem a hx) y (List.mem_cons_of_mem a hy)
      · rw [List.dedup_cons_of_not_mem hmem]
        have hl : l = [] := by
          cases l with
          | nil => rfl
          | cons b t =>
            have : b = a := h b (by simp) a (by simp)
            exact absurd (by simp [this]) hmem
        simp [hl]

theorem dedup_length_eq_one_iff {α : Type} [DecidableEq α] (l : List α) (hne : l ≠ []) :
    l.dedup.length = 1 ↔ ∀ a ∈ l, ∀ b ∈ l, a = b := by
  rw [← dedup_length_le_one_iff]
  have h1 : l.dedup ≠ [] := fun h => hne ((List.dedup_eq_nil l).1 h)
  have h2 : 0 < l.dedup.length := List.length_pos.2 h1
  omega

/-- C4: for every batch and every type name observed in at least one
document, the type-count consistency flag is `true` iff every document in the
batch has the same count for that type, a document without the type counting
as zero (`types.get(type_name, 0)`); so a type present in one document and
absent in another is inconsistent. -/
theorem claim4_kind_count_consistency (rs : List (String × AnalysisResult)) (ty : String)
    (_observed : ty ∈ allTypes rs) :
    typeConsistent rs ty = true ↔
      ∀ d ∈ rs, ∀ d2 ∈ rs, lookup0 d.2.types ty = lookup0 d2.2.types ty := by
  have hmap : (typeCounts rs ty).map Prod.snd = rs.map (fun fr => lookup0 fr.2.types ty) := by
    simp [typeCounts, List.map_map, Function.comp]
  rw [show (typeConsistent rs ty = true) ↔
      ((typeCounts rs ty).map Prod.snd).dedup.length ≤ 1 by
    simp [typeConsistent, Nat.not_lt]]
  rw [hmap, dedup_length_le_one_iff]
  constructor
  · intro hall d hd d2 hd2
    exact hall _ (List.mem_map_of_mem _ hd) _ (List.mem_map_of_mem _ hd2)
  · intro hall a ha b hb
    obtain ⟨d, hd, rfl⟩ := List.mem_map.1 ha
    obtain ⟨d2, hd2, rfl⟩ := List.mem_map.1 hb
    exact hall d hd d2 hd2

/-- Witness for C4: in the spec's two-document batch the type `list` is
observed and its counts agree (2 in each document), so it is consistent. -/
theorem claim4_witness :
    "list" ∈ allTypes resultsAB ∧ typeConsistent resultsAB "list" = true :=
  ⟨by decide, (claim4_kind_count_consistency resultsAB "list" (by decide)).mpr (by decide)⟩

/-- C5: for every non-empty batch, the level-consistency flag is `true` iff
all documents report numerically equal `max_level` values; a batch with
exactly one document is always level-consistent. -/
theorem claim5_levels_consistent :
    (∀ rs : List (String × AnalysisResult), rs ≠ [] →
        (isLevelConsistent rs = true ↔ ∀ d ∈ rs, ∀ d2 ∈ rs, d.2.max_level = d2.2.max_level))
    ∧ ∀ (f : String) (r : AnalysisResult), isLevelConsistent [(f, r)] = true := by
  constructor
  · intro rs hne
    have hmap : (maxLevels rs).map Prod.snd = rs.map (fun fr => fr.2.max_level) := by
      simp [maxLevels, List.map_map, Function.comp]
    rw [show (isLevelConsistent rs = true) ↔
        ((maxLevels rs).map Prod.snd).dedup.length = 1 by
      simp [isLevelConsistent]]
    rw [hmap, dedup_length_eq_one_iff _ (by simpa using hne)]
    constructor
    · intro hall d hd d2 hd2
      exact hall _ (List.mem_map_of_mem _ hd) _ (List.mem_map_of_mem _ hd2)
    · intro hall a ha b hb
      obtain ⟨d, hd, rfl⟩ := List.mem_map.1 ha
      obtain ⟨d2, hd2, rfl⟩ := List.mem_map.1 hb
      exact hall d hd d2 hd2
  · intro f r
    simp [isLevelConsistent, maxLevels]

/-- Witness for C5: the spec's two-document batch is non-empty and
level-consistent (both documents report `max_level = 2`). -/
theorem claim5_witness : isLevelConsistent resultsAB = true :=
  (claim5_levels_consistent.1 resultsAB (by decide)).mpr (by decide)

mutual

theorem walk_fields_extend (v : JsonValue) (p : String) (r : AnalysisResult) (l : Nat)
    (hp : 0 < p.length) :
    ∃ t, (analyze_json_structure v p r l).fields = r.fields ++ t ∧
      ∀ fi ∈ t, p.length < fi.path.length := by
  cases v with
  | obj kvs =>
    obtain ⟨t, ht, hlen⟩ :=
      entries_fields_extend kvs p { r with max_level := max r.max_level l } l hp
    exact ⟨t, ht, hlen⟩
  | arr items =>
    cases items with
    | nil => exact ⟨[], by simp [analyze_json_structure], by simp⟩
    | cons x rest =>
      have hsp : p.length < (p ++ "[0]").length := by
        have h3 : ("[0]" : String).length = 3 := rfl
        rw [String.length_append, h3]; omega
      cases hc : isContainer x
      · refine ⟨[{ path := p ++ "[0]", type := typeName x, level := l }], ?_, ?_⟩
        · simp [analyze_json_structure, hc]
        · intro fi hfi
          simp only [List.mem_singleton] at hfi
          rw [hfi]
          exact hsp
      · obtain ⟨t2, ht2, hlen2⟩ :=
          walk_fields_extend x (p ++ "[0]")
            { fields := r.fields ++ [{ path := p ++ "[0]", type := typeName x, level := l }],
              types := incr r.types "list", max_level := max r.max_level l } (l + 1)
            (Nat.lt_of_le_of_lt (Nat.zero_le _) hsp)
        refine ⟨{ path := p ++ "[0]", type := typeName x, level := l } :: t2, ?_, ?_⟩
        · rw [show analyze_json_structure (.arr (.cons x rest)) p r l
              = analyze_json_structure x (p ++ "[0]")
                  { fields := r.fields ++
                      [{ path := p ++ "[0]", type := typeName x, level := l }],
                    types := incr r.types "list", max_level := max r.max_level l } (l + 1) by
                simp [analyze_json_structure, hc]]
          rw [ht2]; simp
        · intro fi hfi
          rcases List.mem_cons.1 hfi with h1 | h2
          · rw [h1]; exact hsp
          · exact Nat.lt_trans hsp (hlen2 fi h2)
  | str s => exact ⟨[], by simp [analyze_json_structure], by simp⟩
  | int n => exact ⟨[], by simp [analyze_json_structure], by simp⟩
  | float => exact ⟨[], by simp [analyze_json_structure], by simp⟩
  | bool b => exact ⟨[], by simp [analyze_json_structure], by simp⟩
  | null => exact ⟨[], by simp [analyze_json_structure], by simp⟩

theorem entries_fields_extend (kvs : JsonEntries) (p : String) (r : AnalysisResult) (l : Nat)
    (hp : 0 < p.length) :
    ∃ t, (analyze_entries kvs p r l).fields = r.fields ++ t ∧
      ∀ fi ∈ t, p.length < fi.path.length := by
  cases kvs with
  | nil => exact ⟨[], by simp [analyze_entries], by simp⟩
  | cons k v rest =>
    have hpne : ¬(p = "") := by
      intro h; rw [h] at hp; simp at hp
    have hcp : p.length < (if p = "" then k else p ++ "." ++ k).length := by
      rw [if_neg hpne, String.length_append, String.length_append]
      have : ("." : String).length = 1 := rfl
      omega
    cases hc : isContainer v
    · obtain ⟨t3, ht3, hlen3⟩ :=
        entries_fields_extend rest p
          { r with
            fields := r.fields ++
              [{ path := if p = "" then k else p ++ "." ++ k,
                 type := typeName v, level := l }],
            types := incr r.types (typeName v) } l hp
      refine ⟨{ path := if p = "" then k else p ++ "." ++ k,
                type := typeName v, level := l } :: t3, ?_, ?_⟩
      · rw [show analyze_entries (.cons k v rest) p r l
            = analyze_entries rest p
                { r with
                  fields := r.fields ++
                    [{ path := if p = "" then k else p ++ "." ++ k,
                       type := typeName v, level := l }],
                  types := incr r.types (typeName v) } l by
              simp [analyze_entries, hc]]
        rw [ht3]; simp
      · intro fi hfi
        rcases List.mem_cons.1 hfi with h1 | h2
        · rw [h1]; exact hcp
        · exact hlen3 fi h2
    · obtain ⟨t2, ht2, hlen2⟩ :=
        walk_fields_extend v (if p = "" then k else p ++ "." ++ k)
          { r with
            fields := r.fields ++
              [{ path := if p = "" then k else p ++ "." ++ k,
                 type := typeName v, level := l }],
            types := incr r.types (typeName v) } (l + 1)
          (Nat.lt_of_le_of_lt (Nat.zero_le _) hcp)
      obtain ⟨t3, ht3, hlen3⟩ :=
        entries_fields_extend rest p
          (analyze_json_structure v (if p = "" then k else p ++ "." ++ k)
            { r with
              fields := r.fields ++
                [{ path := if p = "" then k else p ++ "." ++ k,
                   type := typeName v, level := l }],
              types := incr r.types (typeName v) } (l + 1)) l hp
      refine ⟨{ path := if p = "" then k else p ++ "." ++ k,
                type := typeName v, level := l } :: (t2 ++ t3), ?_, ?_⟩
      · rw [show analyze_entries (.cons k v rest) p r l
            = analyze_entries rest p
                (analyze_json_structure v (if p = "" then k else p ++ "." ++ k)
                  { r with
                    fields := r.fields ++
                      [{ path := if p = "" then k else p ++ "." ++ k,
                         type := typeName v, level := l }],
                    types := incr r.types (typeName v) } (l + 1)) l by
              simp [analyze_entries, hc]]
        rw [ht3, ht2]; simp
      · intro fi hfi
        rcases List.mem_cons.1 hfi with h1 | h23
        · rw [h1]; exact hcp
        · rcases List.mem_append.1 h23 with h2 | h3
          · exact Nat.lt_trans hcp (hlen2 fi h2)
          · exact hlen3 fi h3

end

/-- C6: the sequence branch of the walk appends, for a non-empty sequence,
exactly one observation — the `[0]`-suffixed path of the first element, all
observations added below it having strictly longer paths — and this is
independent of the sequence's length (the walk of `x :: rest` equals the
walk of `[x]`); an empty sequence appends no observation; and in both cases
the branch itself increments the `list` counter exactly once. -/
theorem claim6_sequence_observation (p : String) (r : AnalysisResult) (l : Nat) :
    (analyze_json_structure (.arr .nil) p r l
      = { fields := r.fields, types := incr r.types "list", max_level := max r.max_level l })
    ∧ ∀ (x : JsonValue) (rest : JsonList),
        (analyze_json_structure (.arr (.cons x rest)) p r l
          = analyze_json_structure (.arr (.cons x .nil)) p r l)
        ∧ (analyze_json_structure (.arr (.cons x rest)) p r l
            = if isContainer x then
                analyze_json_structure x (p ++ "[0]")
                  { fields := r.fields ++
                      [{ path := p ++ "[0]", type := typeName x, level := l }],
                    types := incr r.types "list", max_level := max r.max_level l } (l + 1)
              else
                { fields := r.fields ++
                    [{ path := p ++ "[0]", type := typeName x, level := l }],
                  types := incr r.types "list", max_level := max r.max_level l })
        ∧ ∃ t, (analyze_json_structure (.arr (.cons x rest)) p r l).fields
              = r.fields ++ { path := p ++ "[0]", type := typeName x, level := l } :: t
            ∧ ∀ fi ∈ t, (p ++ "[0]").length < fi.path.length := by
  refine ⟨rfl, fun x rest => ⟨rfl, rfl, ?_⟩⟩
  have hsp : 0 < (p ++ "[0]").length := by
    have h3 : ("[0]" : String).length = 3 := rfl
    rw [String.length_append, h3]; omega
  cases hc : isContainer x
  · refine ⟨[], ?_, by simp⟩
    simp [analyze_json_structure, hc]
  · obtain ⟨t2, ht2, hlen2⟩ :=
      walk_fields_extend x (p ++ "[0]")
        { fields := r.fields ++ [{ path := p ++ "[0]", type := typeName x, level := l }],
          types := incr r.types "list", max_level := max r.max_level l } (l + 1) hsp
    refine ⟨t2, ?_, hlen2⟩
    rw [show analyze_json_structure (.arr (.cons x rest)) p r l
        = analyze_json_structure x (p ++ "[0]")
            { fields := r.fields ++ [{ path := p ++ "[0]", type := typeName x, level := l }],
              types := incr r.types "list", max_level := max r.max_level l } (l + 1) by
          simp [analyze_json_structure, hc]]
    rw [ht2]; simp

/-- Witness for C6: walking the two-element sequence `[7, "z"]` at path `b`
appends exactly the observation for `b[0]` and one `list` count. -/
theorem claim6_witness :
    analyze_json_structure (.arr (.cons (.int 7) (.cons (.str "z") .nil))) "b" emptyResult 0
      = { fields := [{ path := "b[0]", type := "int", level := 0 }],
          types := [("list", 1)], max_level := 0 } := by
  have h := ((claim6_sequence_observation "b" emptyResult 0).2 (.int 7) (.cons (.str "z") .nil)).2.1
  rw [h]
  decide

/-- C7: the observation recorded for a sequence's sampled first element comes
with no type-counter increment for that element's kind (for a non-container
sample the branch changes the counter by the single `list` bump only); hence
the counter can undercount observations — walking `{"b": [{"c": 1}]}`
records one `dict` observation while the counter has no `dict` entry. -/
theorem claim7_sample_not_counted :
    (∀ (x : JsonValue) (rest : JsonList) (p : String) (r : AnalysisResult) (l : Nat),
        isContainer x = false →
        (analyze_json_structure (.arr (.cons x rest)) p r l).types = incr r.types "list")
    ∧ lookup0 (analyzeTop docNestedMap).types "dict" = 0
    ∧ ((analyzeTop docNestedMap).fields.filter (fun fi => fi.type == "dict")).length = 1
    ∧ lookup0 (analyzeTop docNestedMap).types "dict"
        < ((analyzeTop docNestedMap).fields.filter (fun fi => fi.type == "dict")).length := by
  refine ⟨?_, by decide, by decide, by decide⟩
  intro x rest p r l hc
  simp [analyze_json_structure, hc]

/-- Witness for C7: walking the sequence `[7]` at path `b` adds only the
`list` count, no `int` count for the sampled element. -/
theorem claim7_witness :
    (analyze_json_structure (.arr (.cons (.int 7) .nil)) "b" emptyResult 0).types
      = [("list", 1)] := by
  have h := claim7_sample_not_counted.1 (.int 7) .nil "b" emptyResult 0 (by decide)
  rw [h]
  decide

theorem mem_keys_appendAt (m : TypeFiles) (ty f k : String) :
    k ∈ (appendAt m ty f).map Prod.fst ↔ k ∈ m.map Prod.fst ∨ k = ty := by
  induction m with
  | nil => simp [appendAt]
  | cons tf rest ih =>
    obtain ⟨t, fs⟩ := tf
    by_cases h : t = ty
    · subst h
      simp [appendAt, List.mem_cons]
      tauto
    · simp [appendAt, h, List.mem_cons, ih]
      tauto

theorem nodup_keys_appendAt (m : TypeFiles) (ty f : String)
    (h : (m.map Prod.fst).Nodup) : ((appendAt m ty f).map Prod.fst).Nodup := by
  induction m with
  | nil => simp [appendAt]
  | cons tf rest ih =>
    obtain ⟨t, fs⟩ := tf
    rw [List.map_cons, List.nodup_cons] at h
    by_cases hty : t = ty
    · subst hty
      simpa [appendAt, List.nodup_cons] using h
    · simp only [appendAt, if_neg hty, List.map_cons, List.nodup_cons]
      refine ⟨?_, ih h.2⟩
      rw [mem_keys_appendAt]
      push_neg
      exact ⟨h.1, hty⟩

theorem lookupTypes_addObservation (ft : FieldTypes) (p ty f q : String) :
    lookupTypes (addObservation ft p ty f) q =
      if q = p then appendAt (lookupTypes ft p) ty f else lookupTypes ft q := by
  induction ft with
  | nil =>
    by_cases h : q = p
    · subst h; simp [addObservation, lookupTypes, appendAt]
    · simp [addObservation, lookupTypes, h, Ne.symm h]
  | cons pm rest ih =>
    obtain ⟨p', m⟩ := pm
    by_cases h1 : p' = p
    · subst h1
      by_cases h2 : q = p'
      · subst h2; simp [addObservation, lookupTypes]
      · simp [addObservation, lookupTypes, h2, Ne.symm h2]
    · by_cases h2 : q = p
      · subst h2
        simp [addObservation, lookupTypes, h1, ih]
      · by_cases h3 : p' = q
        · subst h3
          simp [addObservation, lookupTypes, h1, h2]
        · simp [addObservation, lookupTypes, h1, h2, h3, ih]

theorem mem_keys_obsFold (obs : List (String × String × String)) (ft : FieldTypes)
    (q k : String) :
    k ∈ (lookupTypes (obsFold ft obs) q).map Prod.fst ↔
      k ∈ (lookupTypes ft q).map Prod.fst ∨ (q, k) ∈ obs.map (fun o => (o.1, o.2.1)) := by
  induction obs generalizing ft with
  | nil => simp [obsFold]
  | cons o rest ih =>
    rw [show obsFold ft (o :: rest) = obsFold (addObservation ft o.1 o.2.1 o.2.2) rest from rfl]
    rw [ih, lookupTypes_addObservation, List.map_cons, List.mem_cons]
    by_cases h : q = o.1
    · subst h
      rw [if_pos rfl, mem_keys_appendAt]
      simp only [Prod.mk.injEq, eq_self_iff_true, true_and]
      tauto
    · rw [if_neg h]
      simp only [Prod.mk.injEq]
      constructor
      · intro hh
        rcases hh with h1 | h2
        · exact Or.inl h1
        · exact Or.inr (Or.inr h2)
      · intro hh
        rcases hh with h1 | h2 | h3
        · exact Or.inl h1
        · exact absurd h2.1 h
        · exact Or.inr h3

theorem nodup_keys_obsFold (obs : List (String × String × String)) (ft : FieldTypes)
    (h : ∀ q, ((lookupTypes ft q).map Prod.fst).Nodup) (q : String) :
    ((lookupTypes (obsFold ft obs) q).map Prod.fst).Nodup := by
  induction obs generalizing ft with
  | nil => exact h q
  | cons o rest ih =>
    apply ih
    intro q'
    rw [lookupTypes_addObservation]
    by_cases hq : q' = o.1
    · rw [if_pos hq]
      exact nodup_keys_appendAt _ _ _ (h o.1)
    · rw [if_neg hq]
      exact h q'

theorem foldDocument_eq_obsFold (ft : FieldTypes) (file : String) (fields : List FieldInfo) :
    foldDocument ft file fields = obsFold ft (fields.map (fun fi => (fi.path, fi.type, file))) := by
  induction fields generalizing ft with
  | nil => rfl
  | cons fi rest ih =>
    rw [show foldDocument ft file (fi :: rest)
        = foldDocument (addObservation ft fi.path fi.type file) file rest from rfl]
    rw [ih]
    rfl

theorem batchObservations_from (docs : List (String × JsonValue))
    (acc : List (String × String × String)) :
    docs.foldl (fun a d => a ++ (analyzeTop d.2).fields.map (fun fi => (fi.path, fi.type, d.1)))
        acc
      = acc ++ batchObservations docs := by
  induction docs generalizing acc with
  | nil => simp [batchObservations]
  | cons d rest ih =>
    rw [show (d :: rest).foldl
          (fun a d => a ++ (analyzeTop d.2).fields.map (fun fi => (fi.path, fi.type, d.1))) acc
        = rest.foldl
            (fun a d => a ++ (analyzeTop d.2).fields.map (fun fi => (fi.path, fi.type, d.1)))
            (acc ++ (analyzeTop d.2).fields.map (fun fi => (fi.path, fi.type, d.1))) from rfl]
    rw [ih]
    rw [show batchObservations (d :: rest)
        = rest.foldl
            (fun a d => a ++ (analyzeTop d.2).fields.map (fun fi => (fi.path, fi.type, d.1)))
            ([] ++ (analyzeTop d.2).fields.map (fun fi => (fi.path, fi.type, d.1))) from rfl]
    rw [ih]
    simp

theorem foldDocuments_eq_obsFold (docs : List (String × JsonValue)) (ft : FieldTypes) :
    foldDocuments ft docs = obsFold ft (batchObservations docs) := by
  induction docs generalizing ft with
  | nil => rfl
  | cons d rest ih =>
    rw [show foldDocuments ft (d :: rest)
        = foldDocuments (foldDocument ft d.1 (analyzeTop d.2).fields) rest from rfl]
    rw [ih, foldDocument_eq_obsFold]
    rw [show batchObservations (d :: rest)
        = rest.foldl
            (fun a d => a ++ (analyzeTop d.2).fields.map (fun fi => (fi.path, fi.type, d.1)))
            ([] ++ (analyzeTop d.2).fields.map (fun fi => (fi.path, fi.type, d.1))) from rfl]
    rw [batchObservations_from]
    rw [show ([] : List (String × String × String))
          ++ (analyzeTop d.2).fields.map (fun fi => (fi.path, fi.type, d.1))
        = (analyzeTop d.2).fields.map (fun fi => (fi.path, fi.type, d.1)) from by simp]
    rw [obsFold, obsFold, obsFold, List.foldl_append]

theorem mem_kindsObserved (docs : List (String × JsonValue)) (path k : String) :
    k ∈ kindsObserved docs path ↔
      (path, k) ∈ (batchObservations docs).map (fun o => (o.1, o.2.1)) := by
  simp only [kindsObserved, List.mem_filterMap, List.mem_map]
  constructor
  · rintro ⟨o, ho, hsome⟩
    by_cases h : o.1 = path
    · rw [if_pos h] at hsome
      exact ⟨o, ho, by rw [h, Option.some_inj.1 hsome]⟩
    · rw [if_neg h] at hsome; cases hsome
  · rintro ⟨o, ho, heq⟩
    have h1 : o.1 = path := congrArg Prod.fst heq
    have h2 : o.2.1 = k := congrArg Prod.snd heq
    exact ⟨o, ho, by rw [if_pos h1, h2]⟩

theorem nodup_singleton_iff {α : Type} (K : List α) (hnd : K.Nodup) :
    K.length = 1 ↔ ∃ k, ∀ x, x ∈ K ↔ x = k := by
  constructor
  · intro h
    obtain ⟨a, rfl⟩ := List.length_eq_one.1 h
    exact ⟨a, by simp⟩
  · rintro ⟨k, hk⟩
    have hkK : k ∈ K := (hk k).2 rfl
    cases K with
    | nil => simp at hkK
    | cons a t =>
      have ha : a = k := (hk a).1 (by simp)
      cases t with
      | nil => rfl
      | cons b t2 =>
        have hb : b = k := (hk b).1 (by simp)
        rw [List.nodup_cons] at hnd
        exact absurd (show a ∈ b :: t2 by rw [ha, ← hb]; simp) hnd.1

/-- C3: for every batch folded into the index, a field path is classified
consistent (`len(types) == 1`) iff exactly one kind was ever observed for it
across the whole batch, regardless of how many documents contain it. -/
theorem claim3_consistency_iff (docs : List (String × JsonValue)) (path : String) :
    pathConsistent (buildFieldTypes docs) path = true ↔
      ∃ k, ∀ k', k' ∈ kindsObserved docs path ↔ k' = k := by
  have hbuild : buildFieldTypes docs = obsFold [] (batchObservations docs) :=
    foldDocuments_eq_obsFold docs []
  have hnd : ((lookupTypes (buildFieldTypes docs) path).map Prod.fst).Nodup := by
    rw [hbuild]
    exact nodup_keys_obsFold _ _ (fun q => by simp [lookupTypes]) path
  have hmem : ∀ k, k ∈ (lookupTypes (buildFieldTypes docs) path).map Prod.fst ↔
      k ∈ kindsObserved docs path := by
    intro k
    rw [hbuild, mem_keys_obsFold, mem_kindsObserved]
    simp [lookupTypes]
  have hlen : pathConsistent (buildFieldTypes docs) path = true ↔
      ((lookupTypes (buildFieldTypes docs) path).map Prod.fst).length = 1 := by
    simp [pathConsistent]
  rw [hlen, nodup_singleton_iff _ hnd]
  constructor
  · rintro ⟨k, hk⟩
    exact ⟨k, fun k' => by rw [← hmem k']; exact hk k'⟩
  · rintro ⟨k, hk⟩
    exact ⟨k, fun k' => by rw [hmem k']; exact hk k'⟩

theorem processFrom_spec (docs : List (String × Except String JsonValue)) (s : BatchState) :
    processFrom s docs =
      { field_types := foldDocuments s.field_types (okDocs docs),
        all_files := s.all_files ++ (okDocs docs).map Prod.fst,
        errors := s.errors ++ errMessages docs } := by
  induction docs generalizing s with
  | nil => simp [processFrom, okDocs, errMessages, foldDocuments]
  | cons d rest ih =>
    rw [show processFrom s (d :: rest) = processFrom (batchStep s d) rest from rfl, ih]
    cases hd : d.2 with
    | ok v =>
      obtain ⟨name, dv⟩ := d
      simp only at hd
      subst hd
      simp [batchStep, okDocs, errMessages, foldDocuments]
    | error e =>
      obtain ⟨name, dv⟩ := d
      simp only at hd
      subst hd
      simp [batchStep, okDocs, errMessages, foldDocuments]

/-- C10: a document whose load fails affects only itself — its error is
reported in place, it contributes nothing to the shared index or the file
list, and all other documents of the batch are processed exactly as they
would be without it. -/
theorem claim10_failure_isolation (pre : List (String × Except String JsonValue))
    (name e : String) (post : List (String × Except String JsonValue)) :
    processBatch (pre ++ (name, Except.error e) :: post) =
      { field_types := (processBatch (pre ++ post)).field_types,
        all_files := (processBatch (pre ++ post)).all_files,
        errors := (processBatch pre).errors ++ errorLine name e ::
          (processBatch post).errors } := by
  have hok : okDocs (pre ++ (name, Except.error e) :: post) = okDocs (pre ++ post) := by
    simp [okDocs, List.filterMap_append, List.filterMap_cons]
  have herr : errMessages (pre ++ (name, Except.error e) :: post)
      = errMessages pre ++ errorLine name e :: errMessages post := by
    simp [errMessages, List.filterMap_append, List.filterMap_cons]
  rw [processBatch, processFrom_spec, processBatch, processFrom_spec,
    processBatch, processFrom_spec, processBatch, processFrom_spec]
  simp [hok, herr]

/-- C2 (amended): for every input tree, the `max_level` reported by the walk
for the initial call equals the maximum number of container-nesting
boundaries crossed from the root: each recursion into a nested mapping, or
into the sampled first element of a sequence when that element is itself a
mapping or sequence, increases the reported depth by one. -/
theorem claim2_amended_max_level (v : JsonValue) :
    (analyzeTop v).max_level = containerDepth v := by
  rw [analyzeTop, walk_max_level]
  simp [emptyResult]

/-- Sanity evaluation of the walk on document A: the four observations, the
type counter (note `list` counted twice — once by the mapping branch for the
child, once by the sequence branch itself) and the maximum level. -/
theorem docA_walk_eval :
    analyzeTop docA =
      { fields :=
          [ { path := "a", type := "int", level := 0 },
            { path := "b", type := "list", level := 0 },
            { path := "b[0]", type := "dict", level := 1 },
            { path := "b[0].c", type := "str", level := 2 } ],
        types := [("int", 1), ("list", 2), ("str", 1)],
        max_level := 2 } := by decide
